import Mathlib

/-
Verification of the feed aggregation and caching engine of the mmingle
repository.  The definitions below are shallow embeddings of the
TypeScript functions in src/app/lib/postUtils.ts, src/app/page.tsx,
src/app/components/Map.tsx and lib/queries.ts; the theorems settle the
specification claims about them.
-/

namespace Mmingle

/-- A row of the likes table as selected by the engagement queries: the
select post_id queries also carry the user_id column that the
viewer-likes query filters on. -/
structure LikeRow where
  post_id : String
  user_id : String
deriving DecidableEq

/-- A row of the comments table as selected by select post_id. -/
structure CommentRow where
  post_id : String
deriving DecidableEq

/-- A content item (post) reduced to the field the aggregation reads. -/
structure Item where
  id : String
deriving DecidableEq

/-- A post annotated with the derived engagement fields, as built by the
final map of loadPostsWithCounts. -/
structure AnnotatedItem where
  id : String
  likes_count : Nat
  comments_count : Nat
  is_liked : Bool
deriving DecidableEq

/-- One step of the JS reduce that builds a Record tally:
acc[k] = (acc[k] || 0) + 1.  The Record is modelled as a total function
where a missing key reads as 0, matching the JS lookup (acc[k] || 0). -/
def recordIncr (acc : String → Nat) (k : String) : String → Nat :=
  fun x => if x = k then acc k + 1 else acc x

/-- The reduce over a list of post_id keys, as in likeCounts and
commentCounts of loadPostsWithCounts (postUtils.ts lines 146-160) and in
getPostStats (lib/queries.ts). -/
def buildCounts (keys : List String) : String → Nat :=
  keys.foldl recordIncr (fun _ => 0)

/-- Steps 8-10 of loadPostsWithCounts (postUtils.ts lines 128-168):
given the fetched like rows (allLikesData), the fetched comment rows
(allCommentsData) and the optional logged-in user, the viewer-likes
query is modelled as the like rows filtered by user_id and by the
post_id in-filter over the post ids; then the two tallies and the liked
set are built and each post is annotated. -/
def loadPostsAggregate (postsData : List Item) (likeRows : List LikeRow)
    (commentRows : List CommentRow) (user : Option String) :
    List AnnotatedItem :=
  let postIds := postsData.map Item.id
  let userLikes : List LikeRow :=
    match user with
    | none => []
    | some uid =>
        likeRows.filter (fun r => r.user_id == uid && postIds.contains r.post_id)
  let likedPostIds := userLikes.map LikeRow.post_id
  let likeCounts := buildCounts (likeRows.map LikeRow.post_id)
  let commentCounts := buildCounts (commentRows.map CommentRow.post_id)
  postsData.map (fun post =>
    { id := post.id
      likes_count := likeCounts post.id
      comments_count := commentCounts post.id
      is_liked := likedPostIds.contains post.id })

/-- What the aggregation is claimed to compute for a post of the input
list: the row counts keyed by its id and the existence of a viewer
like. -/
def itemAggregate (likeRows : List LikeRow) (commentRows : List CommentRow)
    (user : Option String) (post : Item) : AnnotatedItem :=
  { id := post.id
    likes_count := (likeRows.map LikeRow.post_id).count post.id
    comments_count := (commentRows.map CommentRow.post_id).count post.id
    is_liked :=
      match user with
      | none => false
      | some uid => likeRows.any (fun r => r.post_id == post.id && r.user_id == uid) }

/-- MAX_BATCH_SIZE (postUtils.ts line 5). -/
def MAX_BATCH_SIZE : Int := 50

/-- MAX_URL_LENGTH (postUtils.ts line 6). -/
def MAX_URL_LENGTH : Int := 2000

/-- getSafeBatchSize (postUtils.ts lines 18-25).  baseUrlLength is the
length of the interpolated base URL string, which depends on the
SUPABASE_URL environment variable and is therefore a parameter.
Math.floor over the positive divisor 36 + 1 is integer floor
division. -/
def getSafeBatchSize (baseUrlLength : Nat) (postIds : List String) : Int :=
  let avgIdLength : Int := 36
  let safeCount := Int.fdiv (MAX_URL_LENGTH - baseUrlLength - 10) (avgIdLength + 1)
  min safeCount (min MAX_BATCH_SIZE (postIds.length : Int))

/-- The loop of chunkArray (postUtils.ts lines 9-15), fuel-indexed so
that it is total: none means the fuel ran out before the loop finished.
The loop counter i is an integer, and i += chunkSize never advances past
the length check when chunkSize is not positive. -/
def chunkLoop (array : List α) (chunkSize : Int) : Int → Nat → Option (List (List α))
  | _, 0 => none
  | i, fuel + 1 =>
    if i < (array.length : Int) then
      match chunkLoop array chunkSize (i + chunkSize) fuel with
      | none => none
      | some rest => some (((array.drop i.toNat).take chunkSize.toNat) :: rest)
    else
      some []

/-- chunkArray (postUtils.ts lines 9-15): run the loop from i = 0. -/
def chunkArray (array : List α) (chunkSize : Int) (fuel : Nat) :
    Option (List (List α)) :=
  chunkLoop array chunkSize 0 fuel

/-- The value chunkArray computes when the chunk size is positive: the
fixed-size front-to-back partition of the list. -/
def chunksOf (chunkSize : Nat) : List α → List (List α)
  | [] => []
  | x :: xs =>
      (x :: xs.take (chunkSize - 1)) :: chunksOf chunkSize (xs.drop (chunkSize - 1))
termination_by l => l.length
decreasing_by simp; omega

/-- Events of the synchronous execution trace of the wave loop of
loadPostsWithCounts (postUtils.ts lines 95-104).  dispatchWave records
that Promise.all was applied to the slice of three chunk promises,
which subscribes to them and dispatches those fetches; awaitDelay is
the await of the 50 ms setTimeout; awaitAllWaves is the final await of
Promise.all over the pushed wave promises (line 106). -/
inductive SchedEvent where
  | dispatchWave (waveIdx : Nat)
  | awaitDelay
  | awaitAllWaves
deriving DecidableEq

/-- The loop for (i = 0; i < len; i += 3) of postUtils.ts lines 95-104:
iteration i pushes Promise.all over the slice of three chunk promises,
dispatching wave i / 3, and then, only when i > 0, awaits the 50 ms
delay. -/
def waveGo (len : Nat) (i : Nat) : List SchedEvent :=
  if _h : i < len then
    (SchedEvent.dispatchWave (i / 3) ::
      (if 0 < i then [SchedEvent.awaitDelay] else [])) ++ waveGo len (i + 3)
  else []
termination_by len - i
decreasing_by omega

/-- The full synchronous trace of the wave scheduler for numChunks chunk
promises: the dispatch loop followed by the await of all wave
promises. -/
def schedulerTrace (numChunks : Nat) : List SchedEvent :=
  waveGo numChunks 0 ++ [SchedEvent.awaitAllWaves]

/-- Checks that between any two dispatch events of a trace there is at
least one suspension point (a delay await or the all-waves await).
pending records whether a dispatch has been seen with no suspension
after it.  In the single-threaded cooperative model a promise can only
settle while the scheduler is suspended, so this check is necessary for
every wave to settle before the next wave is dispatched. -/
def wavesSeparated : List SchedEvent → Bool → Bool
  | [], _ => true
  | SchedEvent.dispatchWave _ :: rest, pending =>
      if pending then false else wavesSeparated rest true
  | SchedEvent.awaitDelay :: rest, _ => wavesSeparated rest false
  | SchedEvent.awaitAllWaves :: rest, _ => wavesSeparated rest false

/-- The lat/lng bounding box read from map.getBounds(): north-east and
south-west corners, with coordinates modelled as scaled integers. -/
structure Bounds where
  neLat : Int
  neLng : Int
  swLat : Int
  swLng : Int
deriving DecidableEq

/-- The map component state read by loadPostsInArea: getBounds() may
return null. -/
structure MapState where
  bounds : Option Bounds
deriving DecidableEq

/-- loadPostsInArea (Map.tsx lines 201-235): with no map handle or no
bounds it returns without fetching; otherwise it issues exactly one
posts query filtered by the bounds.  The returned list is the network
requests the call issues. -/
def loadPostsInArea (map : Option MapState) : List Bounds :=
  match map with
  | none => []
  | some m =>
    match m.bounds with
    | none => []
    | some b => [b]

/-- onMapIdle (Map.tsx lines 298-300) calls loadPostsInArea directly. -/
def onMapIdle (map : Option MapState) : List Bounds :=
  loadPostsInArea map

/-- The requests issued across a sequence of idle (viewport-settle)
signals: each signal runs onMapIdle against the map state at that
moment, and the issued requests are concatenated. -/
def runIdleSignals (signals : List (Option MapState)) : List Bounds :=
  (signals.map onMapIdle).flatten

/-- The pair of counts returned by getPostCounts. -/
structure Counts where
  likes_count : Nat
  comments_count : Nat
deriving DecidableEq

/-- An entry of countsCache (postUtils.ts lines 206-212). -/
structure CacheEntry where
  data : Counts
  timestamp : Int
deriving DecidableEq

/-- CACHE_DURATION (postUtils.ts line 213), in milliseconds. -/
def CACHE_DURATION : Int := 30000

/-- countsCache.get on the JS Map, modelled as association-list
lookup. -/
def cacheGet (cache : List (String × CacheEntry)) (k : String) :
    Option CacheEntry :=
  (cache.find? (fun p => p.1 == k)).map Prod.snd

/-- countsCache.set on the JS Map: replaces the binding for the key. -/
def cacheSet (cache : List (String × CacheEntry)) (k : String)
    (v : CacheEntry) : List (String × CacheEntry) :=
  (k, v) :: cache.eraseP (fun p => p.1 == k)

/-- getPostCounts (postUtils.ts lines 179-203).  The argument is the
resolved shape of the two head-count queries: each carries an optional
count (a null count becomes 0 through the JS || 0), and none models the
query pair throwing, which the catch turns into the zero fallback. -/
def getPostCounts (backend : Option (Option Nat × Option Nat)) : Counts :=
  match backend with
  | none => { likes_count := 0, comments_count := 0 }
  | some (lc, cc) => { likes_count := lc.getD 0, comments_count := cc.getD 0 }

/-- getCachedPostCounts (postUtils.ts lines 215-230).  fetched is the
value that await getPostCounts(postId) would produce; the Bool of the
result records whether that await executed, that is whether the backend
was contacted. -/
def getCachedPostCounts (cache : List (String × CacheEntry)) (postId : String)
    (now : Int) (fetched : Counts) :
    Counts × List (String × CacheEntry) × Bool :=
  match cacheGet cache postId with
  | some cached =>
    if now - cached.timestamp < CACHE_DURATION then
      (cached.data, cache, false)
    else
      (fetched, cacheSet cache postId { data := fetched, timestamp := now }, true)
  | none =>
      (fetched, cacheSet cache postId { data := fetched, timestamp := now }, true)

/-- getPostStats (lib/queries.ts): the like and comment queries filtered
by post_id in postIds, each reduced to a count record. -/
def getPostStats (postIds : List String) (likeRows : List LikeRow)
    (commentRows : List CommentRow) : (String → Nat) × (String → Nat) :=
  let likesData := likeRows.filter (fun r => postIds.contains r.post_id)
  let commentsData := commentRows.filter (fun r => postIds.contains r.post_id)
  (buildCounts (likesData.map LikeRow.post_id),
   buildCounts (commentsData.map CommentRow.post_id))

/-- The pagination state of the home page (page.tsx lines 47-50). -/
structure PageState where
  posts : List AnnotatedItem
  page : Nat
  hasMore : Bool
deriving DecidableEq

/-- loadRecentPosts (page.tsx lines 214-276) as a state transition: the
primary query backend returns the page of items for a page index, the
engagement tables are given as row lists, and the second component of
the result collects the page indices fetched from the primary query. -/
def loadRecentPosts (backend : Nat → List Item) (likeRows : List LikeRow)
    (commentRows : List CommentRow) (user : Option String)
    (s : PageState) (pageNum : Nat) (reset : Bool) : PageState × List Nat :=
  let s0 : PageState := if reset then { s with page := 0, hasMore := true } else s
  let postsData := backend pageNum
  if postsData.length > 0 then
    let postIds := postsData.map Item.id
    let stats := getPostStats postIds likeRows commentRows
    let userLikes : List String :=
      match user with
      | none => []
      | some uid =>
          (likeRows.filter
            (fun r => r.user_id == uid && postIds.contains r.post_id)).map
              LikeRow.post_id
    let postsWithStats := postsData.map (fun p =>
      { id := p.id
        likes_count := stats.1 p.id
        comments_count := stats.2 p.id
        is_liked := userLikes.contains p.id : AnnotatedItem })
    ({ posts := if reset then postsWithStats else s0.posts ++ postsWithStats
       page := s0.page
       hasMore := postsWithStats.length == 10 }, [pageNum])
  else
    ({ posts := if reset then [] else s0.posts
       page := s0.page
       hasMore := false }, [pageNum])

/-- loadMore (page.tsx lines 76-82): only when not loading, hasMore is
set and the list mode is active does it advance the page and load that
page without reset; otherwise it does nothing and fetches nothing. -/
def loadMore (backend : Nat → List Item) (likeRows : List LikeRow)
    (commentRows : List CommentRow) (user : Option String)
    (loading : Bool) (isListMode : Bool) (s : PageState) : PageState × List Nat :=
  if !loading && s.hasMore && isListMode then
    loadRecentPosts backend likeRows commentRows user
      { s with page := s.page + 1 } (s.page + 1) false
  else (s, [])

/-- A primary query returning pages of sizes 10, 10 and 4 for page size
10: 24 posts in total, served in page-index order. -/
def specBackend (page : Nat) : List Item :=
  (((List.range 24).drop (10 * page)).take 10).map (fun n => { id := toString n })

/-- The merge of the chunk fetch results (postUtils.ts lines 106-126):
each settled result contributes result.data, or the empty list when the
fetch failed and data is null; a chunk result is therefore an optional
row list. -/
def mergeResults (results : List (Option (List α))) : List α :=
  (results.map (fun r => r.getD [])).flatten

/-- loadPostsWithCounts from the point where all chunk results have
settled: merge both fetched row sets and run the aggregation of steps
8-10. -/
def loadFromChunkResults (postsData : List Item)
    (likeResults : List (Option (List LikeRow)))
    (commentResults : List (Option (List CommentRow)))
    (user : Option String) : List AnnotatedItem :=
  loadPostsAggregate postsData (mergeResults likeResults)
    (mergeResults commentResults) user

/-- Relates a chunk result to the rows the chunk fetch would have
produced had it succeeded: the result either carries exactly those rows
or is a failure. -/
def chunkResultRel (o : Option (List α)) (full : List α) : Prop :=
  o = some full ∨ o = none

/-- A concrete single-item feed input. -/
def c7posts : List Item := [{ id := "a" }]

/-- Two like chunk results of which the second failed. -/
def c7likeResults : List (Option (List LikeRow)) :=
  [some [{ post_id := "a", user_id := "u" }], none]

/-- The rows the two like chunk fetches would have produced on
success. -/
def c7fullLikes : List (List LikeRow) :=
  [[{ post_id := "a", user_id := "u" }], [{ post_id := "a", user_id := "v" }]]

/-- One comment chunk result that failed. -/
def c7commentResults : List (Option (List CommentRow)) := [none]

/-- The rows the comment chunk fetch would have produced on success. -/
def c7fullComments : List (List CommentRow) := [[{ post_id := "a" }]]

/- ------------------------------------------------------------------
Supporting lemmas.
------------------------------------------------------------------ -/

theorem foldl_recordIncr (keys : List String) :
    ∀ (acc : String → Nat) (k : String),
      (keys.foldl recordIncr acc) k = acc k + keys.count k := by
  induction keys with
  | nil => intro acc k; simp
  | cons a as ih =>
    intro acc k
    simp only [List.foldl_cons, ih, List.count_cons]
    by_cases h : k = a
    · subst h
      simp [recordIncr]
      omega
    · have hba : (k == a) = false := by simpa using h
      simp [recordIncr, h, hba]
      exact fun hak => h hak.symm

theorem buildCounts_eq_count (keys : List String) (k : String) :
    buildCounts keys k = keys.count k := by
  simp [buildCounts, foldl_recordIncr]

theorem loadPostsAggregate_eq (postsData : List Item) (likeRows : List LikeRow)
    (commentRows : List CommentRow) (user : Option String) :
    loadPostsAggregate postsData likeRows commentRows user =
      postsData.map (itemAggregate likeRows commentRows user) := by
  unfold loadPostsAggregate
  apply List.map_congr_left
  intro post hpost
  have hid : (postsData.map Item.id).contains post.id := by
    simp only [List.contains_eq_any_beq, List.any_eq_true]
    exact ⟨post.id, List.mem_map_of_mem Item.id hpost, by simp⟩
  unfold itemAggregate
  cases user with
  | none =>
      simp [buildCounts_eq_count]
  | some uid =>
      have hlike : ((likeRows.filter
          (fun r => r.user_id == uid && (postsData.map Item.id).contains r.post_id)).map
            LikeRow.post_id).contains post.id =
          likeRows.any (fun r => r.post_id == post.id && r.user_id == uid) := by
        rw [Bool.eq_iff_iff]
        simp only [List.contains_eq_any_beq, List.any_eq_true, List.mem_map,
          List.mem_filter, Bool.and_eq_true, beq_iff_eq]
        constructor
        · rintro ⟨pid, ⟨r, ⟨hr, hu, _⟩, rfl⟩, hpid⟩
          exact ⟨r, hr, hpid.symm, hu⟩
        · rintro ⟨r, hr, hpid, hu⟩
          refine ⟨r.post_id, ⟨r, ⟨hr, hu, ?_⟩, rfl⟩, hpid.symm⟩
          rw [hpid]
          simpa only [List.contains_eq_any_beq, List.any_eq_true, List.mem_map,
            beq_iff_eq] using hid
      rw [buildCounts_eq_count, buildCounts_eq_count]
      congr 1

theorem chunksOf_cons (cs : Nat) (hcs : 1 ≤ cs) (x : α) (xs : List α) :
    chunksOf cs (x :: xs) =
      (x :: xs).take cs :: chunksOf cs ((x :: xs).drop cs) := by
  obtain ⟨c, rfl⟩ : ∃ c, cs = c + 1 := ⟨cs - 1, by omega⟩
  simp [chunksOf]

theorem chunksOf_flatten (cs : Nat) (l : List α) :
    (chunksOf cs l).flatten = l := by
  match l with
  | [] => simp [chunksOf]
  | x :: xs =>
    have ih := chunksOf_flatten cs (xs.drop (cs - 1))
    simp [chunksOf, ih]
termination_by l.length
decreasing_by simp; omega

theorem chunksOf_length_le (cs : Nat) (hcs : 1 ≤ cs) (l : List α) :
    ∀ c ∈ chunksOf cs l, c.length ≤ cs := by
  match l with
  | [] => simp [chunksOf]
  | x :: xs =>
    intro c hc
    simp only [chunksOf, List.mem_cons] at hc
    rcases hc with rfl | hc
    · simp only [List.length_cons, List.length_take]
      have := Nat.min_le_left (cs - 1) xs.length
      omega
    · exact chunksOf_length_le cs hcs (xs.drop (cs - 1)) c hc
termination_by l.length
decreasing_by simp; omega

theorem chunksOf_ne_nil (cs : Nat) (l : List α) :
    ∀ c ∈ chunksOf cs l, c ≠ [] := by
  match l with
  | [] => simp [chunksOf]
  | x :: xs =>
    intro c hc
    simp only [chunksOf, List.mem_cons] at hc
    rcases hc with rfl | hc
    · simp
    · exact chunksOf_ne_nil cs (xs.drop (cs - 1)) c hc
termination_by l.length
decreasing_by simp; omega

theorem chunkLoop_eq_chunksOf (cs : Nat) (hcs : 1 ≤ cs) :
    ∀ (fuel : Nat) (l : List α) (i : Nat), 0 < fuel → l.length < i + fuel →
      chunkLoop l (cs : Int) (i : Int) fuel = some (chunksOf cs (l.drop i)) := by
  intro fuel
  induction fuel with
  | zero => intro l i h0 _; omega
  | succ f ih =>
      intro l i _ h
      by_cases hi : i < l.length
      · have hi2 : (i : Int) < (l.length : Int) := by exact_mod_cast hi
        have hf : 0 < f := by omega
        have hlen : l.length < (i + cs) + f := by omega
        have hrec := ih l (i + cs) hf hlen
        have hcast : ((i : Int) + (cs : Int)) = ((i + cs : Nat) : Int) := by
          push_cast
          ring
        have hdropne : l.drop i ≠ [] := by
          intro hnil
          have := List.length_drop i l
          rw [hnil] at this
          simp at this
          omega
        obtain ⟨y, ys, hys⟩ := List.exists_cons_of_ne_nil hdropne
        simp only [chunkLoop, if_pos hi2, hcast, hrec]
        rw [hys, chunksOf_cons cs hcs]
        rw [← hys]
        have h1 : (l.drop i).drop cs = l.drop (i + cs) := by
          rw [List.drop_drop]
        have h2 : ((i : Int)).toNat = i := by simp
        have h3 : ((cs : Int)).toNat = cs := by simp
        rw [h1, h2, h3]
      · have hi2 : ¬ ((i : Int) < (l.length : Int)) := by exact_mod_cast hi
        have hdrop : l.drop i = [] := List.drop_eq_nil_of_le (by omega)
        rw [chunkLoop, if_neg hi2, hdrop]
        simp [chunksOf]

theorem chunkLoop_none_of_nonpos (l : List α) (hl : l ≠ []) (cs : Int)
    (hcs : cs ≤ 0) :
    ∀ (fuel : Nat) (i : Int), i ≤ 0 → chunkLoop l cs i fuel = none := by
  intro fuel
  induction fuel with
  | zero => intro i _; rfl
  | succ f ih =>
      intro i hi
      have hlen : 0 < l.length := List.length_pos.mpr hl
      have hilt : i < (l.length : Int) := by
        have h0 : (0 : Int) < (l.length : Int) := by exact_mod_cast hlen
        omega
      simp [chunkLoop, if_pos hilt, ih (i + cs) (by omega)]

theorem getSafeBatchSize_eq (baseUrlLength : Nat) (ids : List String) :
    getSafeBatchSize baseUrlLength ids =
      min (Int.fdiv ((2000 : Int) - baseUrlLength - 10) 37)
        (min 50 (ids.length : Int)) := by
  simp [getSafeBatchSize, MAX_URL_LENGTH, MAX_BATCH_SIZE]

theorem getSafeBatchSize_ge_one (baseUrlLength : Nat) (ids : List String)
    (hne : ids ≠ []) (hurl : (baseUrlLength : Int) + 10 + 36 < MAX_URL_LENGTH) :
    1 ≤ getSafeBatchSize baseUrlLength ids := by
  rw [getSafeBatchSize_eq]
  have h37 : (37 : Int) ≤ 2000 - baseUrlLength - 10 := by
    simp only [MAX_URL_LENGTH] at hurl
    omega
  have hfd : (1 : Int) ≤ Int.fdiv (2000 - baseUrlLength - 10) 37 := by
    rw [Int.fdiv_eq_ediv _ (by norm_num)]
    have := Int.ediv_le_ediv (by norm_num : (0 : Int) < 37) h37
    simpa using this
  have hlen : 1 ≤ (ids.length : Int) := by
    have : 0 < ids.length := List.length_pos.mpr hne
    exact_mod_cast this
  simp only [le_min_iff]
  exact ⟨hfd, by norm_num, hlen⟩

theorem mergeResults_sublist {results : List (Option (List α))}
    {full : List (List α)} (h : List.Forall₂ chunkResultRel results full) :
    (mergeResults results).Sublist full.flatten := by
  induction h with
  | nil => simp [mergeResults]
  | @cons o f os fs hrel _ ih =>
      have h1 : (o.getD []).Sublist f := by
        rcases hrel with rfl | rfl
        · exact List.Sublist.refl _
        · exact List.nil_sublist _
      simpa [mergeResults] using List.Sublist.append h1 ih

theorem waveGo_eq (n w : Nat) (hw : 1 ≤ w) :
    waveGo n (3 * w) =
      (List.range' w ((n + 2) / 3 - w)).flatMap
        (fun j => [SchedEvent.dispatchWave j, SchedEvent.awaitDelay]) := by
  rw [waveGo]
  by_cases h : 3 * w < n
  · have hpos : 0 < 3 * w := by omega
    have h3 : 3 * w + 3 = 3 * (w + 1) := by ring
    have ihw := waveGo_eq n (w + 1) (by omega)
    have hk : (n + 2) / 3 - w = ((n + 2) / 3 - (w + 1)) + 1 := by omega
    rw [dif_pos h, if_pos hpos, h3, ihw, hk, List.range'_succ]
    have hdiv : 3 * w / 3 = w := by omega
    simp [hdiv]
  · rw [dif_neg h]
    have hk : (n + 2) / 3 - w = 0 := by omega
    rw [hk]
    simp
termination_by n - 3 * w
decreasing_by omega

theorem schedulerTrace_eq (n : Nat) (hn : 1 ≤ n) :
    schedulerTrace n =
      SchedEvent.dispatchWave 0 ::
        ((List.range' 1 ((n + 2) / 3 - 1)).flatMap
          (fun j => [SchedEvent.dispatchWave j, SchedEvent.awaitDelay])) ++
        [SchedEvent.awaitAllWaves] := by
  unfold schedulerTrace
  rw [waveGo, dif_pos (by omega : 0 < n), if_neg (by omega : ¬ 0 < 0)]
  have h3 : 0 + 3 = 3 * 1 := by norm_num
  rw [h3, waveGo_eq n 1 (le_refl 1)]
  simp

theorem wavesSeparated_trace_false (n : Nat) (h2 : 2 ≤ (n + 2) / 3) :
    wavesSeparated (schedulerTrace n) false = false := by
  have hn : 1 ≤ n := by omega
  rw [schedulerTrace_eq n hn]
  obtain ⟨m, hm⟩ : ∃ m, (n + 2) / 3 - 1 = m + 1 := ⟨(n + 2) / 3 - 2, by omega⟩
  rw [hm, List.range'_succ]
  simp [wavesSeparated]

theorem runIdleSignals_map_some (bs : List Bounds) :
    runIdleSignals (bs.map (fun b => some { bounds := some b })) = bs := by
  induction bs with
  | nil => rfl
  | cons b rest ih =>
      simp only [runIdleSignals, List.map_cons, List.flatten_cons] at ih ⊢
      rw [ih]
      rfl

theorem cacheGet_cacheSet (cache : List (String × CacheEntry)) (k : String)
    (v : CacheEntry) : cacheGet (cacheSet cache k v) k = some v := by
  unfold cacheGet cacheSet
  rw [List.find?_cons_of_pos _ (by simp)]
  rfl

theorem loadRecentPosts_hasMore (backend : Nat → List Item)
    (likeRows : List LikeRow) (commentRows : List CommentRow)
    (user : Option String) (hlen : ∀ n, (backend n).length ≤ 10)
    (s : PageState) (pageNum : Nat) (reset : Bool) :
    ((loadRecentPosts backend likeRows commentRows user s pageNum reset).1.hasMore
        = false) ↔ (backend pageNum).length < 10 := by
  have hb := hlen pageNum
  unfold loadRecentPosts
  by_cases h : (backend pageNum).length > 0
  · rw [if_pos h]
    simp only [List.length_map, beq_eq_false_iff_ne, ne_eq]
    omega
  · rw [if_neg h]
    simp only []
    constructor
    · intro _; omega
    · intro _; trivial

theorem loadMore_noop (backend : Nat → List Item) (likeRows : List LikeRow)
    (commentRows : List CommentRow) (user : Option String)
    (loading : Bool) (isListMode : Bool) (s : PageState)
    (h : s.hasMore = false) :
    loadMore backend likeRows commentRows user loading isListMode s = (s, []) := by
  simp [loadMore, h]

/- ------------------------------------------------------------------
Claim theorems.
------------------------------------------------------------------ -/

/-- C1: for every list of content items, like rows, comment rows and
optional viewer, the count aggregation annotates each item in the list
with likes_count equal to the number of like rows keyed by its id,
comments_count equal to the number of comment rows keyed by its id, and
is_liked true iff a like row exists for the item and the viewer; the
output is exactly one annotated entry per input item, so rows keyed by
unknown ids contribute no output entry, and items with no matching rows
get zero counts and a false flag. -/
theorem claim_C1 (postsData : List Item) (likeRows : List LikeRow)
    (commentRows : List CommentRow) (user : Option String) :
    loadPostsAggregate postsData likeRows commentRows user =
      postsData.map (itemAggregate likeRows commentRows user) :=
  loadPostsAggregate_eq postsData likeRows commentRows user

/-- C2 (amended): the wave loop dispatches wave 0 and then, for each
later wave, dispatches it and only afterwards awaits the 50 ms delay;
all wave promises are awaited together only after every wave has been
dispatched, and whenever there are at least two waves, consecutive wave
dispatches are not separated by any suspension point, so wave N+1 can
start before wave N has settled. -/
theorem claim_C2 (n : Nat) (hn : 1 ≤ n) :
    schedulerTrace n =
      SchedEvent.dispatchWave 0 ::
        ((List.range' 1 ((n + 2) / 3 - 1)).flatMap
          (fun j => [SchedEvent.dispatchWave j, SchedEvent.awaitDelay])) ++
        [SchedEvent.awaitAllWaves] ∧
    (2 ≤ (n + 2) / 3 → wavesSeparated (schedulerTrace n) false = false) :=
  ⟨schedulerTrace_eq n hn, fun h2 => wavesSeparated_trace_false n h2⟩

/-- C2 witness: the amended claim at 7 chunks, which form 3 waves. -/
theorem claim_C2_witness :
    1 ≤ 7 ∧
    (schedulerTrace 7 =
      SchedEvent.dispatchWave 0 ::
        ((List.range' 1 ((7 + 2) / 3 - 1)).flatMap
          (fun j => [SchedEvent.dispatchWave j, SchedEvent.awaitDelay])) ++
        [SchedEvent.awaitAllWaves] ∧
    (2 ≤ (7 + 2) / 3 → wavesSeparated (schedulerTrace 7) false = false)) :=
  ⟨by decide, claim_C2 7 (by decide)⟩

/-- C2 counterexample: for 7 chunks the synchronous trace dispatches
wave 0 and wave 1 back to back with no suspension point between them,
so wave 0 cannot have settled when wave 1 is dispatched; the claimed
settle barrier between waves does not exist. -/
theorem claim_C2_counterexample :
    schedulerTrace 7 =
      [SchedEvent.dispatchWave 0, SchedEvent.dispatchWave 1,
        SchedEvent.awaitDelay, SchedEvent.dispatchWave 2,
        SchedEvent.awaitDelay, SchedEvent.awaitAllWaves] ∧
    wavesSeparated (schedulerTrace 7) false = false := by
  have htr : schedulerTrace 7 =
      [SchedEvent.dispatchWave 0, SchedEvent.dispatchWave 1,
        SchedEvent.awaitDelay, SchedEvent.dispatchWave 2,
        SchedEvent.awaitDelay, SchedEvent.awaitAllWaves] := by
    simp [schedulerTrace, waveGo]
  refine ⟨htr, ?_⟩
  rw [htr]
  decide

/-- C3: the empty input yields zero chunks, and for every non-empty
identifier list under the URL-budget constraint the computed safe batch
size is positive and chunkArray partitions the input exactly:
concatenation in order returns the input, every chunk is non-empty, no
chunk is longer than the safe batch size, and for duplicate-free input
the chunks are pairwise disjoint. -/
theorem claim_C3 :
    (∀ (cs : Int), chunkArray ([] : List String) cs 1 = some []) ∧
    ∀ (baseUrlLength : Nat) (ids : List String), ids ≠ [] →
      (baseUrlLength : Int) + 10 + 36 < MAX_URL_LENGTH →
      ∃ chunks,
        chunkArray ids (getSafeBatchSize baseUrlLength ids) (ids.length + 1)
            = some chunks ∧
        chunks.flatten = ids ∧
        (∀ c ∈ chunks, c ≠ []) ∧
        (∀ c ∈ chunks, (c.length : Int) ≤ getSafeBatchSize baseUrlLength ids) ∧
        (ids.Nodup → chunks.Pairwise List.Disjoint) := by
  constructor
  · intro cs
    rw [chunkArray, chunkLoop]
    simp
  · intro baseUrlLength ids hne hurl
    have hs1 : 1 ≤ getSafeBatchSize baseUrlLength ids :=
      getSafeBatchSize_ge_one baseUrlLength ids hne hurl
    set s := getSafeBatchSize baseUrlLength ids with hs
    have hcsn : 1 ≤ s.toNat := by omega
    have hback : ((s.toNat : Nat) : Int) = s := Int.toNat_of_nonneg (by omega)
    refine ⟨chunksOf s.toNat ids, ?_, chunksOf_flatten _ _,
      chunksOf_ne_nil _ _, ?_, ?_⟩
    · have h := chunkLoop_eq_chunksOf s.toNat hcsn (ids.length + 1) ids 0
        (by omega) (by omega)
      rw [hback] at h
      simpa [chunkArray] using h
    · intro c hc
      have := chunksOf_length_le s.toNat hcsn ids c hc
      omega
    · intro hnd
      have hflat : (chunksOf s.toNat ids).flatten.Nodup := by
        rw [chunksOf_flatten]
        exact hnd
      exact (List.nodup_flatten.mp hflat).2

/-- C3 witness: a three-identifier list with a realistic base URL length
is partitioned as claimed. -/
theorem claim_C3_witness :
    (["a", "b", "c"] : List String) ≠ [] ∧
    ((85 : Nat) : Int) + 10 + 36 < MAX_URL_LENGTH ∧
    ∃ chunks,
      chunkArray ["a", "b", "c"] (getSafeBatchSize 85 ["a", "b", "c"])
          ((["a", "b", "c"] : List String).length + 1) = some chunks ∧
      chunks.flatten = ["a", "b", "c"] ∧
      (∀ c ∈ chunks, c ≠ []) ∧
      (∀ c ∈ chunks, (c.length : Int) ≤ getSafeBatchSize 85 ["a", "b", "c"]) ∧
      ((["a", "b", "c"] : List String).Nodup → chunks.Pairwise List.Disjoint) :=
  ⟨by decide, by decide, claim_C3.2 85 ["a", "b", "c"] (by decide) (by decide)⟩

/-- C4 (amended): under the URL-budget constraint the safe batch size of
a non-empty identifier list is at least 1; but when the floor quotient
of the formula is non-positive, getSafeBatchSize simply returns a
non-positive batch size: the source defines no ConfigurationError and
never fails. -/
theorem claim_C4 :
    (∀ (baseUrlLength : Nat) (ids : List String), ids ≠ [] →
        (baseUrlLength : Int) + 10 + 36 < MAX_URL_LENGTH →
        1 ≤ getSafeBatchSize baseUrlLength ids) ∧
    (∀ (baseUrlLength : Nat) (ids : List String),
        Int.fdiv ((2000 : Int) - baseUrlLength - 10) 37 ≤ 0 →
        getSafeBatchSize baseUrlLength ids ≤ 0) := by
  refine ⟨getSafeBatchSize_ge_one, ?_⟩
  intro baseUrlLength ids hq
  rw [getSafeBatchSize_eq]
  exact le_trans (min_le_left _ _) hq

/-- C4 witness: the two branches of the amended claim at concrete
inputs. -/
theorem claim_C4_witness :
    1 ≤ getSafeBatchSize 85 ["a"] ∧ getSafeBatchSize 2000 ["a"] ≤ 0 :=
  ⟨claim_C4.1 85 ["a"] (by decide) (by decide),
   claim_C4.2 2000 ["a"] (by decide)⟩

/-- C4 counterexample: for a base URL of length 2000 the formula yields
a negative quotient and getSafeBatchSize returns -1 for a one-element
identifier list: the batch size is not at least 1 and no
ConfigurationError is raised, since the function totally returns a
value. -/
theorem claim_C4_counterexample :
    (["a"] : List String).length > 0 ∧
    Int.fdiv ((2000 : Int) - (2000 : Nat) - 10) 37 ≤ 0 ∧
    getSafeBatchSize 2000 ["a"] = -1 := by decide

/-- C5 (amended): every viewport-settle signal with a live map and
bounds issues exactly one fetch carrying those bounds, with no
duplicate suppression of any kind: a sequence of signals with identical
bounding boxes issues one fetch per signal. -/
theorem claim_C5 (bs : List Bounds) :
    runIdleSignals (bs.map (fun b => some { bounds := some b })) = bs :=
  runIdleSignals_map_some bs

/-- C5 counterexample: two viewport-settle signals carrying identical
bounding boxes result in two network fetches, not exactly one:
onMapIdle calls loadPostsInArea unconditionally and the code keeps no
canonicalized last-issued request to compare against. -/
theorem claim_C5_counterexample :
    (runIdleSignals [some { bounds := some ⟨1, 2, 3, 4⟩ },
        some { bounds := some ⟨1, 2, 3, 4⟩ }]).length = 2 ∧
    (runIdleSignals [some { bounds := some ⟨1, 2, 3, 4⟩ },
        some { bounds := some ⟨1, 2, 3, 4⟩ }]).length ≠ 1 := by decide

/-- C6 (amended): the cached lookup returns the stored aggregate exactly
when an entry exists and now - computedAt < TTL; an entry whose age is
at least TTL (including exactly TTL) is ignored and recomputed, a miss
recomputes and stores the fresh value with the current timestamp, and a
put followed immediately by a get returns the stored value. -/
theorem claim_C6 :
    (∀ (cache : List (String × CacheEntry)) (postId : String) (now : Int)
        (fetched : Counts) (e : CacheEntry),
        cacheGet cache postId = some e →
        (now - e.timestamp < CACHE_DURATION →
            getCachedPostCounts cache postId now fetched = (e.data, cache, false)) ∧
        (CACHE_DURATION ≤ now - e.timestamp →
            getCachedPostCounts cache postId now fetched =
              (fetched, cacheSet cache postId { data := fetched, timestamp := now },
                true))) ∧
    (∀ (cache : List (String × CacheEntry)) (postId : String) (now : Int)
        (fetched : Counts),
        cacheGet cache postId = none →
        getCachedPostCounts cache postId now fetched =
          (fetched, cacheSet cache postId { data := fetched, timestamp := now },
            true)) ∧
    (∀ (cache : List (String × CacheEntry)) (postId : String) (now : Int)
        (v : Counts) (fetched : Counts),
        (getCachedPostCounts
          (cacheSet cache postId { data := v, timestamp := now })
          postId now fetched).1 = v) := by
  refine ⟨?_, ?_, ?_⟩
  · intro cache postId now fetched e he
    constructor
    · intro hlt
      unfold getCachedPostCounts
      rw [he]
      simp [hlt]
    · intro hge
      unfold getCachedPostCounts
      rw [he]
      simp only []
      rw [if_neg (by omega)]
  · intro cache postId now fetched he
    unfold getCachedPostCounts
    rw [he]
  · intro cache postId now v fetched
    unfold getCachedPostCounts
    rw [cacheGet_cacheSet]
    simp [CACHE_DURATION]

/-- C6 witness: a lookup against the empty cache recomputes and stores
the fetched value. -/
theorem claim_C6_witness :
    cacheGet ([] : List (String × CacheEntry)) "p" = none ∧
    getCachedPostCounts [] "p" 5 ⟨1, 2⟩ =
      (⟨1, 2⟩, cacheSet [] "p" ⟨⟨1, 2⟩, 5⟩, true) :=
  ⟨rfl, claim_C6.2.1 [] "p" 5 ⟨1, 2⟩ rfl⟩

/-- C6 counterexample: an entry whose age is exactly TTL (30000 ms) is
not returned even though its age does not exceed TTL, refuting the
claim that an entry is ignored only once now - computedAt > TTL: the
code uses a strict freshness comparison, so the boundary case
recomputes. -/
theorem claim_C6_counterexample :
    cacheGet [("p", (⟨⟨1, 1⟩, 0⟩ : CacheEntry))] "p" = some ⟨⟨1, 1⟩, 0⟩ ∧
    ¬ ((30000 : Int) - 0 > CACHE_DURATION) ∧
    (getCachedPostCounts [("p", (⟨⟨1, 1⟩, 0⟩ : CacheEntry))] "p" 30000
        ⟨0, 0⟩).1 ≠ (⟨1, 1⟩ : Counts) := by decide

/-- C7: when some chunk fetches fail (their results carry no rows), the
feed load still returns one annotated item per input item, annotated by
the aggregation over the merged surviving rows, and each count is at
most the count the complete row set would have produced: a failed chunk
understates counts but never aborts the operation or surfaces a
failure. -/
theorem claim_C7 (postsData : List Item)
    (likeResults : List (Option (List LikeRow)))
    (commentResults : List (Option (List CommentRow)))
    (user : Option String)
    (fullLikes : List (List LikeRow)) (fullComments : List (List CommentRow))
    (hl : List.Forall₂ chunkResultRel likeResults fullLikes)
    (hc : List.Forall₂ chunkResultRel commentResults fullComments) :
    (loadFromChunkResults postsData likeResults commentResults user).length
        = postsData.length ∧
    loadFromChunkResults postsData likeResults commentResults user =
      postsData.map (itemAggregate (mergeResults likeResults)
        (mergeResults commentResults) user) ∧
    ∀ post : Item,
      ((mergeResults likeResults).map LikeRow.post_id).count post.id ≤
        (fullLikes.flatten.map LikeRow.post_id).count post.id ∧
      ((mergeResults commentResults).map CommentRow.post_id).count post.id ≤
        (fullComments.flatten.map CommentRow.post_id).count post.id := by
  refine ⟨?_, loadPostsAggregate_eq _ _ _ _, ?_⟩
  · rw [loadFromChunkResults, loadPostsAggregate_eq]
    exact List.length_map _ _
  · intro post
    exact ⟨List.Sublist.count_le
        (List.Sublist.map _ (mergeResults_sublist hl)) _,
      List.Sublist.count_le
        (List.Sublist.map _ (mergeResults_sublist hc)) _⟩

/-- C7 witness: one item, a failed second like chunk and a failed
comment chunk still yield a full annotated output with understated
counts. -/
theorem claim_C7_witness :
    List.Forall₂ chunkResultRel c7likeResults c7fullLikes ∧
    List.Forall₂ chunkResultRel c7commentResults c7fullComments ∧
    ((loadFromChunkResults c7posts c7likeResults c7commentResults none).length
        = c7posts.length ∧
     loadFromChunkResults c7posts c7likeResults c7commentResults none =
        c7posts.map (itemAggregate (mergeResults c7likeResults)
          (mergeResults c7commentResults) none) ∧
     ∀ post : Item,
       ((mergeResults c7likeResults).map LikeRow.post_id).count post.id ≤
          (c7fullLikes.flatten.map LikeRow.post_id).count post.id ∧
       ((mergeResults c7commentResults).map CommentRow.post_id).count post.id ≤
          (c7fullComments.flatten.map CommentRow.post_id).count post.id) := by
  have h1 : List.Forall₂ chunkResultRel c7likeResults c7fullLikes := by
    unfold c7likeResults c7fullLikes
    exact List.Forall₂.cons (Or.inl rfl)
      (List.Forall₂.cons (Or.inr rfl) List.Forall₂.nil)
  have h2 : List.Forall₂ chunkResultRel c7commentResults c7fullComments := by
    unfold c7commentResults c7fullComments
    exact List.Forall₂.cons (Or.inr rfl) List.Forall₂.nil
  exact ⟨h1, h2, claim_C7 c7posts c7likeResults c7commentResults none
    c7fullLikes c7fullComments h1 h2⟩

/-- C8: with a primary query that never returns more than the requested
page size 10, a load marks the feed exhausted (hasMore = false) iff the
just-loaded page returned fewer than 10 items; once exhausted, loadMore
is a no-op that fetches nothing; and for a backend serving pages of
sizes 10, 10 and 4, three loads accumulate 10, 20 and 24 items and
hasMore becomes false only after the third. -/
theorem claim_C8 :
    (∀ (backend : Nat → List Item) (likeRows : List LikeRow)
        (commentRows : List CommentRow) (user : Option String),
        (∀ n, (backend n).length ≤ 10) →
        ∀ (s : PageState) (pageNum : Nat) (reset : Bool),
          ((loadRecentPosts backend likeRows commentRows user s pageNum
              reset).1.hasMore = false) ↔ (backend pageNum).length < 10) ∧
    (∀ (backend : Nat → List Item) (likeRows : List LikeRow)
        (commentRows : List CommentRow) (user : Option String)
        (loading isListMode : Bool) (s : PageState), s.hasMore = false →
        loadMore backend likeRows commentRows user loading isListMode s
          = (s, [])) ∧
    (let r1 := loadRecentPosts specBackend [] [] none
        { posts := [], page := 0, hasMore := true } 0 true
     let r2 := loadMore specBackend [] [] none false true r1.1
     let r3 := loadMore specBackend [] [] none false true r2.1
     r1.1.posts.length = 10 ∧ r1.1.hasMore = true ∧ r1.2 = [0] ∧
     r2.1.posts.length = 20 ∧ r2.1.hasMore = true ∧ r2.2 = [1] ∧
     r3.1.posts.length = 24 ∧ r3.1.hasMore = false ∧ r3.2 = [2]) := by
  refine ⟨?_, loadMore_noop, ?_⟩
  · intro backend likeRows commentRows user hlen s pageNum reset
    exact loadRecentPosts_hasMore backend likeRows commentRows user hlen
      s pageNum reset
  · decide

/-- C8 witness: the exhaustion test and the no-op branch at concrete
inputs over the 10, 10, 4 backend. -/
theorem claim_C8_witness :
    ((loadRecentPosts specBackend [] [] none
        { posts := [], page := 0, hasMore := true } 2 false).1.hasMore = false ↔
      (specBackend 2).length < 10) ∧
    loadMore specBackend [] [] none false true
        { posts := [], page := 5, hasMore := false }
      = ({ posts := [], page := 5, hasMore := false }, []) := by
  constructor
  · exact claim_C8.1 specBackend [] [] none
      (by
        intro n
        simp [specBackend]) { posts := [], page := 0, hasMore := true } 2 false
  · exact claim_C8.2.1 specBackend [] [] none false true
      { posts := [], page := 5, hasMore := false } rfl

/-- C9: for every chunk size at least 1 the chunkArray loop terminates
within array length + 1 iterations and returns the fixed-size partition
of the array; for every non-empty array and chunk size at most 0 the
loop never terminates: no fuel bound suffices, since no guard rejects a
non-positive chunk size. -/
theorem claim_C9 :
    (∀ {α : Type} (l : List α) (cs : Int), 1 ≤ cs →
        chunkArray l cs (l.length + 1) = some (chunksOf cs.toNat l) ∧
        (chunksOf cs.toNat l).flatten = l ∧
        (∀ c ∈ chunksOf cs.toNat l, c.length ≤ cs.toNat)) ∧
    (∀ {α : Type} (l : List α) (cs : Int), l ≠ [] → cs ≤ 0 →
        ∀ (fuel : Nat), chunkArray l cs fuel = none) := by
  constructor
  · intro α l cs hcs
    have hcsn : 1 ≤ cs.toNat := by omega
    have hback : ((cs.toNat : Nat) : Int) = cs := Int.toNat_of_nonneg (by omega)
    refine ⟨?_, chunksOf_flatten _ _, chunksOf_length_le _ hcsn _⟩
    have h := chunkLoop_eq_chunksOf cs.toNat hcsn (l.length + 1) l 0
      (by omega) (by omega)
    rw [hback] at h
    simpa [chunkArray] using h
  · intro α l cs hne hcs fuel
    exact chunkLoop_none_of_nonpos l hne cs hcs fuel 0 (le_refl 0)

/-- C9 witness: chunk size 2 partitions a three-element list into two
chunks within the fuel bound, while chunk size -1 exhausts any fuel. -/
theorem claim_C9_witness :
    chunkArray (["a", "b", "c"] : List String) 2
        ((["a", "b", "c"] : List String).length + 1)
      = some (chunksOf (2 : Int).toNat ["a", "b", "c"]) ∧
    chunksOf (2 : Int).toNat (["a", "b", "c"] : List String)
      = [["a", "b"], ["c"]] ∧
    chunkArray (["a"] : List String) (-1) 3 = none := by
  refine ⟨(claim_C9.1 ["a", "b", "c"] 2 (by decide)).1, ?_,
    claim_C9.2 ["a"] (-1) (by decide) (by decide) 3⟩
  show chunksOf 2 ["a", "b", "c"] = [["a", "b"], ["c"]]
  simp [chunksOf]

/-- C10: when the backend query inside getPostCounts fails, the result
is the zero fallback; a refresh that misses the cache or finds a stale
entry stores this fallback unconditionally with the current timestamp,
and for the rest of the 30-second TTL window every refresh of that id
returns the cached zero counts without contacting the backend. -/
theorem claim_C10 (cache : List (String × CacheEntry)) (postId : String)
    (now : Int)
    (hmiss : match cacheGet cache postId with
      | none => True
      | some e => CACHE_DURATION ≤ now - e.timestamp) :
    getPostCounts none = ⟨0, 0⟩ ∧
    getCachedPostCounts cache postId now (getPostCounts none) =
      (⟨0, 0⟩, cacheSet cache postId ⟨⟨0, 0⟩, now⟩, true) ∧
    ∀ (now2 : Int) (fetched2 : Counts), now2 - now < CACHE_DURATION →
      getCachedPostCounts (cacheSet cache postId ⟨⟨0, 0⟩, now⟩) postId now2
          fetched2
        = (⟨0, 0⟩, cacheSet cache postId ⟨⟨0, 0⟩, now⟩, false) := by
  refine ⟨rfl, ?_, ?_⟩
  · cases h : cacheGet cache postId with
    | none =>
        unfold getCachedPostCounts
        rw [h]
        rfl
    | some e =>
        rw [h] at hmiss
        simp only [] at hmiss
        unfold getCachedPostCounts
        rw [h]
        simp only []
        rw [if_neg (by omega)]
        rfl
  · intro now2 fetched2 hfresh
    unfold getCachedPostCounts
    rw [cacheGet_cacheSet]
    simp only []
    rw [if_pos hfresh]

/-- C10 witness: a failed backend refresh against the empty cache caches
the zero fallback at time 0 and later refreshes inside the TTL window
return it without contacting the backend. -/
theorem claim_C10_witness :
    getPostCounts none = ⟨0, 0⟩ ∧
    getCachedPostCounts ([] : List (String × CacheEntry)) "p" 0
        (getPostCounts none)
      = (⟨0, 0⟩, cacheSet [] "p" ⟨⟨0, 0⟩, 0⟩, true) ∧
    ∀ (now2 : Int) (fetched2 : Counts), now2 - 0 < CACHE_DURATION →
      getCachedPostCounts (cacheSet [] "p" ⟨⟨0, 0⟩, 0⟩) "p" now2 fetched2
        = (⟨0, 0⟩, cacheSet [] "p" ⟨⟨0, 0⟩, 0⟩, false) :=
  claim_C10 [] "p" 0 True.intro

end Mmingle
